import Mathlib

/-!
Verification of the VerbOS agent-orchestration core against its specification.

The definitions below are a shallow embedding of the TypeScript sources:
  * `src/electron/main/tools/ShellTool.ts` (command whitelist, blocked
    patterns, `getCommandSensitivity`, `validateCommand`),
  * `src/electron/main/graph/workers/BaseWorker.ts` (`getToolSensitivity`,
    `BaseWorker.process`, `BaseWorker.executePendingAction`,
    `describeAction`, `generateTaskSummary`) — the current revision of the
    worker, the one whose `WorkerResult` carries `taskComplete`/`taskSummary`
    and which emits the approval placeholders (it is the revision the graph
    node `createWorkerNode` and the unit tests are written against),
  * `src/electron/main/graph/state.ts` (the state channels and reducers),
  * `src/electron/main/graph/supervisor.ts` (`Supervisor.route`,
    `filterMessagesForSupervisor`, `pruneMessages`),
  * `src/electron/main/graph/VerbOSGraph.ts` (node handlers, conditional
    edges, `stream` input selection, `approveAction`, `denyAction`),
  * `src/electron/main/graph/SQLiteCheckpointer.ts` (`getTuple`,
    `deleteThread`).

Modelling conventions: JS strings are Lean `String`s (code-point indexing —
identical to UTF-16 indexing on the ASCII data handled here); `undefined`
and `null` are `Option.none` (distinguished where a reducer treats them
specially, see each definition); tool invocation and model invocation are
oracles (explicit outcome parameters), since the embedding is of the
control logic, not of the network or the filesystem.
-/

namespace VerbOS

/-- Tool-call sensitivity classification, `'safe' | 'moderate' | 'sensitive'`. -/
inductive Sensitivity
  | safe
  | moderate
  | sensitive
  deriving DecidableEq, Repr

/-! ### ShellTool.ts: whitelist, blocked patterns and command classifier -/

/-- `SHELL_SECURITY_CONFIG.allowedCommands`. -/
def allowedCommands : List String :=
  ["npm", "npx", "yarn", "pnpm", "git", "ping", "curl", "wget",
   "ls", "dir", "cat", "type", "echo", "pwd", "ps", "tasklist", "whoami"]

/-- The safe read-only commands of `getCommandSensitivity`. -/
def safeShellCommands : List String :=
  ["ls", "dir", "cat", "type", "echo", "pwd", "ps", "tasklist", "whoami", "ping"]

/-- The moderate command bases of `getCommandSensitivity`. -/
def moderateShellCommands : List String :=
  ["git", "npm", "npx", "yarn", "pnpm", "pip", "curl", "wget"]

/-- `safeGitSubcommands` in `getCommandSensitivity`. -/
def safeGitSubcommands : List String :=
  ["status", "log", "diff", "branch", "remote", "show", "ls-files", "ls-tree"]

/-- `safeNpmSubcommands` in `getCommandSensitivity`. -/
def safeNpmSubcommands : List String :=
  ["list", "ls", "view", "info", "search", "outdated", "audit"]

/-- JS `String.prototype.trim`: strip whitespace from both ends.
(Implemented over the character list so that proofs can evaluate it; the
core `String.trim` is not kernel-reducible.) -/
def trimStr (s : String) : String :=
  String.mk (((s.toList.dropWhile fun c => c.isWhitespace).reverse.dropWhile
      fun c => c.isWhitespace).reverse)

/-- ASCII lower-casing of one character (`String.prototype.toLowerCase`;
all data compared by the classifier is ASCII). -/
def charLower (c : Char) : Char :=
  if 'A' ≤ c ∧ c ≤ 'Z' then Char.ofNat (c.toNat + 32) else c

/-- JS `String.prototype.toLowerCase`. -/
def toLowerStr (s : String) : String :=
  String.mk (s.toList.map charLower)

/-- JS `String.prototype.includes` for a single character. -/
def containsChar (s : String) (c : Char) : Bool :=
  s.toList.any (fun x => x = c)

/-- Accumulate the whitespace-separated words of a character list. -/
def wordsAux : List Char → List Char → List String
  | [], acc => if acc.isEmpty then [] else [String.mk acc.reverse]
  | c :: cs, acc =>
      if c.isWhitespace then
        if acc.isEmpty then wordsAux cs []
        else String.mk acc.reverse :: wordsAux cs []
      else wordsAux cs (c :: acc)

/-- JS `str.split(/\s+/)` on an already-trimmed string: the non-empty
whitespace-separated tokens.  (On the trimmed inputs used by the source
the two agree; JS additionally yields `[""]` on the empty string, which
the callers turn back into the empty command base, matched by
`headD ""`.) -/
def splitWs (s : String) : List String :=
  wordsAux s.toList []

/-- `getCommandSensitivity` from ShellTool.ts.  Note the fall-through when a
safe base contains a redirect: the code then reaches the moderate check and,
as the safe and moderate base lists are disjoint, ends at the final
`return 'sensitive'`. -/
def getCommandSensitivity (command : String) : Sensitivity :=
  let trimmedCommand := toLowerStr (trimStr command)
  let toks := splitWs trimmedCommand
  let commandBase := toks.headD ""
  if safeShellCommands.contains commandBase ∧ ¬ containsChar trimmedCommand '>' then
    .safe
  else if moderateShellCommands.contains commandBase then
    if commandBase = "git" ∧ safeGitSubcommands.contains ((toks.drop 1).headD "") then
      .safe
    else if commandBase = "npm" ∧ safeNpmSubcommands.contains ((toks.drop 1).headD "") then
      .safe
    else
      .sensitive
  else
    .sensitive

/-- A token of the blocked-pattern language: the regexes of
`SHELL_SECURITY_CONFIG.blockedPatterns` are sequences of literals,
`\s+`, `\s*`, alternations of literals, and (for the backtick pattern)
a greedy `[^c]*`. -/
inductive PatTok
  | lit (s : String)
  | wsPlus
  | wsStar
  | alts (ss : List String)
  | stopAt (c : Char)
  deriving Repr

/-- Strip a literal character sequence from the front. -/
def stripLead : List Char → List Char → Option (List Char)
  | [], cs => some cs
  | _ :: _, [] => none
  | a :: ps, c :: cs => if a = c then stripLead ps cs else none

/-- Match a token sequence at the start of a character list.  `\s+`/`\s*`
and `[^c]*` are matched by maximal munch, which is complete here because in
every blocked pattern the token that follows them cannot begin with a
character they consume. -/
def matchToks : List PatTok → List Char → Bool
  | [], _ => true
  | .lit s :: rest, cs =>
      match stripLead s.toList cs with
      | some cs' => matchToks rest cs'
      | none => false
  | .wsPlus :: rest, cs =>
      match cs with
      | [] => false
      | c :: cs' =>
          if c.isWhitespace then matchToks rest (cs'.dropWhile Char.isWhitespace)
          else false
  | .wsStar :: rest, cs => matchToks rest (cs.dropWhile Char.isWhitespace)
  | .alts ss :: rest, cs =>
      ss.any (fun s =>
        match stripLead s.toList cs with
        | some cs' => matchToks rest cs'
        | none => false)
  | .stopAt c :: rest, cs => matchToks rest (cs.dropWhile (fun x => x ≠ c))

/-- Match a pattern anywhere in the character list (regex `.test`). -/
def matchesAnywhere (p : List PatTok) : List Char → Bool
  | [] => matchToks p []
  | c :: cs => matchToks p (c :: cs) || matchesAnywhere p cs

/-- The backtick character (written by code to avoid a bare backtick). -/
def backtickChar : Char := '\x60'

/-- The case-sensitive pattern `/`[^`]*`/`. -/
def backtickPat : List PatTok :=
  [.lit "\x60", .stopAt backtickChar, .lit "\x60"]

/-- The remaining blocked patterns; all carry the `/i` flag or contain no
letters, so they are matched against the lower-cased command. -/
def blockedLowerPatterns : List (List PatTok) :=
  [ [.lit "$("],
    [.lit ";"],
    [.lit "&&"],
    [.lit "||"],
    [.lit "|"],
    [.lit "\n"],
    [.lit "rm", .wsPlus, .lit "-rf"],
    [.lit "del", .wsPlus, .lit "/", .alts ["s", "f", "q"]],
    [.lit "format", .wsPlus],
    [.lit "mkfs"],
    [.lit "dd", .wsPlus, .lit "if="],
    [.lit ">", .wsStar, .lit "/dev/"],
    [.lit "shutdown"],
    [.lit "reboot"],
    [.lit "halt"],
    [.lit "poweroff"],
    [.lit "init", .wsPlus, .lit "0"],
    [.lit "kill", .wsPlus, .lit "-9", .wsPlus, .lit "-1"],
    [.lit "pkill", .wsPlus, .lit "-9"],
    [.lit "chmod", .wsPlus, .lit "777"],
    [.lit "chown", .wsPlus, .lit "root"],
    [.lit "sudo"],
    [.lit "su", .wsPlus, .lit "-"],
    [.lit "passwd"],
    [.lit "useradd"],
    [.lit "userdel"],
    [.lit "groupadd"],
    [.lit "visudo"],
    [.lit "crontab"],
    [.lit "systemctl"],
    [.lit "service", .wsPlus],
    [.lit "registry"],
    [.lit "regedit"],
    [.lit "reg", .wsPlus, .alts ["add", "delete", "import", "export"]] ]

/-- True iff some blocked pattern of `SHELL_SECURITY_CONFIG.blockedPatterns`
matches the command. -/
def hasBlockedPattern (command : String) : Bool :=
  matchesAnywhere backtickPat command.toList ||
  blockedLowerPatterns.any (fun p => matchesAnywhere p (toLowerStr command).toList)

/-- `validateCommand` from ShellTool.ts: empty check, whitelist check (on
the lower-cased base), then the blocked-pattern scan (on the raw command).
A thrown `Error` is an `Except.error` carrying the message. -/
def validateCommand (command : String) : Except String Unit :=
  if command = "" then
    .error "Validation Error: Command cannot be empty"
  else
    let commandBase := (splitWs (toLowerStr (trimStr command))).headD ""
    if ¬ allowedCommands.contains commandBase then
      .error ("Security Violation: Command '" ++ commandBase ++ "' is not in the whitelist.")
    else if hasBlockedPattern command then
      .error "Security Violation: Command contains a blocked pattern. This operation is not permitted for security reasons."
    else
      .ok ()

/-- The prologue of the `execute_shell_command` tool body: validate, then
classify.  A command that fails validation is rejected before
`getCommandSensitivity` runs. -/
def shellToolPrecheck (command : String) : Except String Sensitivity :=
  match validateCommand command with
  | .error e => .error e
  | .ok _ => .ok (getCommandSensitivity command)

/-! ### Messages and tool calls -/

/-- A tool call of an assistant message: `{name, args, id}`.  `args` is the
`Record<string, unknown>` as an ordered association list of string-valued
entries (the arguments the classifiers and describers inspect are strings).
The code backfills a missing `id` with `crypto.randomUUID()` before any use,
so the embedding carries the id as already present. -/
structure ToolCall where
  name : String
  args : List (String × String)
  id : String
  deriving DecidableEq, Repr

/-- The body of a LangChain message: Human, AI (with tool calls),
Tool (with the `tool_call_id`), or System. -/
inductive MsgBody
  | user (content : String)
  | assistant (content : String) (toolCalls : List ToolCall)
  | toolRes (toolCallId : String) (content : String)
  | system (content : String)
  deriving DecidableEq, Repr

/-- A message with its optional LangChain message id (distinct from a
`tool_call_id`).  Messages constructed by the graph code carry no id;
`messagesStateReducer` backfills ids with fresh UUIDs, which never collide
with existing ones, so id-less updates behave as plain appends. -/
structure Msg where
  id : Option String := none
  body : MsgBody
  deriving DecidableEq, Repr

/-- `PendingAction` from state.ts. -/
structure PendingAction where
  id : String
  workerName : String
  toolName : String
  toolArgs : List (String × String)
  sensitivity : Sensitivity
  description : String
  deriving DecidableEq, Repr

/-- One step of `messagesStateReducer`: replace in place when the id is
already present, append otherwise; id-less messages are appended (their
backfilled UUID is fresh). -/
def upsertMsg (acc : List Msg) (m : Msg) : List Msg :=
  match m.id with
  | none => acc ++ [m]
  | some i =>
      if acc.any (fun x => x.id = some i) then
        acc.map (fun x => if x.id = some i then m else x)
      else
        acc ++ [m]

/-- The `messages` channel reducer (`messagesStateReducer`): id-based
append-or-replace of each update message. -/
def messagesReducer (prev upd : List Msg) : List Msg :=
  upd.foldl upsertMsg prev

/-! ### BaseWorker.ts -/

/-- `codeTools` in `getToolSensitivity`. -/
def codeTools : List String :=
  ["analyze_code", "generate_code", "refactor_code", "explain_code"]

/-- `researchTools` in `getToolSensitivity`. -/
def researchTools : List String :=
  ["summarize_context", "extract_facts", "analyze_code_context"]

/-- `getToolSensitivity` from BaseWorker.ts.  For `execute_shell_command` a
missing or empty `command` argument is treated as sensitive (the
`typeof command !== 'string' || !command` guard); otherwise classification
is delegated to `getCommandSensitivity`. -/
def getToolSensitivity (toolName : String) (toolArgs : List (String × String)) : Sensitivity :=
  if toolName = "read_file" ∨ toolName = "list_directory" then .safe
  else if toolName = "write_file" ∨ toolName = "create_directory" ∨ toolName = "delete_file" then
    .sensitive
  else if toolName = "get_system_info" then .safe
  else if toolName = "execute_shell_command" then
    match toolArgs.find? (fun kv => kv.1 = "command") with
    | none => .sensitive
    | some kv => if kv.2 = "" then .sensitive else getCommandSensitivity kv.2
  else if codeTools.contains toolName then .safe
  else if researchTools.contains toolName then .safe
  else .sensitive

/-- Outcome of one `tool.invoke(args)` call: a (stringified) result, a
thrown `Error` with its `.message`, or a thrown non-`Error` value with its
`String(...)` rendering.  The two throw variants are separated because
`process` and `executePendingAction` render them differently. -/
inductive ToolOutcome
  | ok (result : String)
  | errE (message : String)
  | errV (rendering : String)
  deriving DecidableEq, Repr

/-- A tool of a worker's registry: its `name` and its behaviour on given
arguments (the oracle for `tool.invoke`). -/
structure Tool where
  name : String
  behavior : List (String × String) → ToolOutcome

/-- `this.tools.find(t => t.name === name)`. -/
def findTool (tools : List Tool) (n : String) : Option Tool :=
  tools.find? (fun t => t.name = n)

/-- JS property read `args.k` rendered into a template string: the value if
present, `"undefined"` otherwise. -/
def lookupArg (args : List (String × String)) (k : String) : String :=
  match args.find? (fun kv => kv.1 = k) with
  | some kv => kv.2
  | none => "undefined"

/-- `JSON.stringify` on the argument record (no escaping of embedded
quotes, which no claim depends on). -/
def jsonStringify (args : List (String × String)) : String :=
  "\x7b" ++ String.intercalate "," (args.map (fun kv => "\"" ++ kv.1 ++ "\":\"" ++ kv.2 ++ "\"")) ++ "\x7d"

/-- `describeAction` from BaseWorker.ts. -/
def describeAction (toolName : String) (args : List (String × String)) : String :=
  if toolName = "write_file" then "Write to file: " ++ lookupArg args "path"
  else if toolName = "create_directory" then "Create directory: " ++ lookupArg args "path"
  else if toolName = "delete_file" then "Delete file: " ++ lookupArg args "path"
  else if toolName = "execute_shell_command" then
    "Execute shell command: " ++ lookupArg args "command"
  else "Execute " ++ toolName ++ " with args: " ++ jsonStringify args

/-- The `PendingAction` built for the first sensitive tool call. -/
def mkPendingAction (workerName : String) (c : ToolCall) : PendingAction :=
  { id := c.id
    workerName := workerName
    toolName := c.name
    toolArgs := c.args
    sensitivity := .sensitive
    description := describeAction c.name c.args }

/-- The tool-result message the worker pushes after executing a
safe/moderate tool inline (the `try { tool.invoke } catch` block of
`process`): the result, or `"Error: <message>"` with `String(error)` for a
non-`Error` throw. -/
def execToolMsg (t : Tool) (c : ToolCall) : Msg :=
  match t.behavior c.args with
  | .ok r => { body := .toolRes c.id r }
  | .errE m => { body := .toolRes c.id ("Error: " ++ m) }
  | .errV v => { body := .toolRes c.id ("Error: " ++ v) }

/-- The tool-call loop of `BaseWorker.process`: for each call in order,
tool-not-found error result, sensitive handling (first sensitive call
becomes the pending action with an `"[Awaiting user approval]"`
placeholder, later sensitive calls get the queued placeholder), or inline
execution.  Returns the pushed tool-result messages and the pending
action. -/
def processCallsAux (workerName : String) (tools : List Tool) (pending : Option PendingAction) :
    List ToolCall → List Msg × Option PendingAction
  | [] => ([], pending)
  | c :: rest =>
      match findTool tools c.name with
      | none =>
          let r := processCallsAux workerName tools pending rest
          (⟨none, .toolRes c.id ("Error: Tool " ++ c.name ++ " not found")⟩ :: r.1, r.2)
      | some t =>
          match getToolSensitivity c.name c.args, pending with
          | .sensitive, none =>
              let pa := mkPendingAction workerName c
              let r := processCallsAux workerName tools (some pa) rest
              (⟨none, .toolRes c.id "[Awaiting user approval]"⟩ :: r.1, r.2)
          | .sensitive, some pa =>
              let r := processCallsAux workerName tools (some pa) rest
              (⟨none, .toolRes c.id "[Queued - previous action awaiting approval]"⟩ :: r.1, r.2)
          | .safe, _ =>
              let r := processCallsAux workerName tools pending rest
              (execToolMsg t c :: r.1, r.2)
          | .moderate, _ =>
              let r := processCallsAux workerName tools pending rest
              (execToolMsg t c :: r.1, r.2)

/-- `argsPreview` in `generateTaskSummary`: first two entries, values cut
to 30 characters, joined with `", "`. -/
def argsPreview (args : List (String × String)) : String :=
  String.intercalate ", " ((args.take 2).map (fun kv => kv.1 ++ "=" ++ kv.2.take 30))

/-- The summary fragments `generateTaskSummary` collects from a message
list: `"Called name(args)"` per tool call of an AI message, and
`"Result: <preview>"` (cut to 100 characters plus `"..."`) per tool
message. -/
def summaryParts : List Msg → List String
  | [] => []
  | m :: rest =>
      (match m.body with
       | .assistant _ calls =>
           if calls.isEmpty then []
           else calls.map (fun tc => "Called " ++ tc.name ++ "(" ++ argsPreview tc.args ++ ")")
       | .toolRes _ content =>
           ["Result: " ++ (if 100 < content.length then content.take 100 ++ "..." else content)]
       | _ => []) ++ summaryParts rest

/-- `generateTaskSummary` from BaseWorker.ts. -/
def generateTaskSummary (workerName : String) (msgs : List Msg) : String :=
  let parts := summaryParts msgs
  if parts.isEmpty then "[" ++ workerName ++ "] Processed request"
  else "[" ++ workerName ++ "] " ++ String.intercalate " | " parts

/-- `WorkerResult` from BaseWorker.ts.  `taskComplete` and `taskSummary`
are optional fields, left `undefined` (`none`) on the HITL and error
paths. -/
structure WorkerResult where
  messages : List Msg
  pendingAction : Option PendingAction
  awaitingApproval : Bool
  taskComplete : Option Bool
  taskSummary : Option String
  deriving DecidableEq, Repr

/-- Outcome of `this.modelWithTools.invoke(messages)`: the assistant
message (content plus tool calls), or a thrown error message.  Tool errors
are caught inside the loop, so the outer catch of `process` corresponds to
a model invocation failure. -/
inductive InvokeOutcome
  | ok (content : String) (toolCalls : List ToolCall)
  | threw (message : String)
  deriving DecidableEq, Repr

/-- `BaseWorker.process` (current revision): on a response without tool
calls return the assistant message with `taskComplete = true` and a
summary; with tool calls run the loop, return the HITL result when a
pending action was queued, and otherwise `taskComplete = false` with the
generated summary; on a model error return a synthetic AI message. -/
def process (workerName : String) (tools : List Tool) (outcome : InvokeOutcome) : WorkerResult :=
  match outcome with
  | .threw msg =>
      { messages := [⟨none, .assistant ("Worker " ++ workerName ++ " encountered an error: " ++ msg) []⟩]
        pendingAction := none
        awaitingApproval := false
        taskComplete := none
        taskSummary := none }
  | .ok content calls =>
      let response : Msg := ⟨none, .assistant content calls⟩
      if calls.isEmpty then
        { messages := [response]
          pendingAction := none
          awaitingApproval := false
          taskComplete := some true
          taskSummary := some (generateTaskSummary workerName [response]) }
      else
        let r := processCallsAux workerName tools none calls
        let resultMessages := response :: r.1
        match r.2 with
        | some pa =>
            { messages := resultMessages
              pendingAction := some pa
              awaitingApproval := true
              taskComplete := none
              taskSummary := none }
        | none =>
            { messages := resultMessages
              pendingAction := none
              awaitingApproval := false
              taskComplete := some false
              taskSummary := some (generateTaskSummary workerName resultMessages) }

/-- `BaseWorker.executePendingAction`: re-invoke the stored tool with the
stored args; on a throw render `"Error: <message>"` for an `Error` and
`"Error: Unknown error"` for a non-`Error` value (unlike the inline path,
which renders `String(error)`). -/
def executePendingAction (tools : List Tool) (action : PendingAction) : List Msg :=
  match findTool tools action.toolName with
  | none => [⟨none, .toolRes action.id ("Error: Tool " ++ action.toolName ++ " not found")⟩]
  | some t =>
      match t.behavior action.toolArgs with
      | .ok r => [⟨none, .toolRes action.id r⟩]
      | .errE m => [⟨none, .toolRes action.id ("Error: " ++ m)⟩]
      | .errV _ => [⟨none, .toolRes action.id "Error: Unknown error"⟩]

/-! ### state.ts: channels, reducers and constants -/

/-- `MAX_ITERATIONS` from state.ts. -/
def MAX_ITERATIONS : Nat := 15

/-- `MAX_WORKER_ITERATIONS` from state.ts. -/
def MAX_WORKER_ITERATIONS : Nat := 5

/-- `MAX_TOOL_OUTPUT_LENGTH` from state.ts. -/
def MAX_TOOL_OUTPUT_LENGTH : Nat := 500

/-- `MAX_MESSAGES_FOR_SUPERVISOR` from state.ts. -/
def MAX_MESSAGES_FOR_SUPERVISOR : Nat := 20

/-- The `END` sentinel of LangGraph. -/
def ENDSentinel : String := "__end__"

/-- The graph state: one field per channel of `GraphState` in state.ts.
The reducers are applied by the node-step functions below, channel by
channel, exactly as each node's update dictionary triggers them. -/
structure GState where
  messages : List Msg
  currentWorker : Option String
  next : String
  pendingAction : Option PendingAction
  awaitingApproval : Bool
  finalResponse : Option String
  error : Option String
  iterationCount : Nat
  workerIterationCount : Nat
  taskComplete : Bool
  taskSummary : Option String
  deriving DecidableEq, Repr

/-- The channel defaults of `GraphState`. -/
def initState : GState :=
  { messages := []
    currentWorker := none
    next := "supervisor"
    pendingAction := none
    awaitingApproval := false
    finalResponse := none
    error := none
    iterationCount := 0
    workerIterationCount := 0
    taskComplete := false
    taskSummary := none }

/-! ### Supervisor (supervisor.ts) -/

/-- The structured-output decision of the routing model, or its failure:
`FINISH` with an optional final response, a worker choice, or a
structured-output/model error (the catch branch of `route`). -/
inductive SupDecision
  | finish (finalResponse : Option String)
  | toWorker (w : String)
  | failure
  deriving DecidableEq, Repr

/-- What `Supervisor.route` returns. -/
structure RouteResult where
  next : String
  finalResponse : Option String
  currentWorker : Option String
  deriving DecidableEq, Repr

/-- The fixed max-steps explanation of `Supervisor.route`. -/
def maxStepsMessage : String :=
  "I apologize, but I reached the maximum number of steps for this task. Please try breaking down your request into smaller parts."

/-- The generic user-safe message of the catch branch of `Supervisor.route`. -/
def genericErrorMessage : String :=
  "I encountered an error while processing your request. Please try again."

/-- `Supervisor.route`: iteration ceiling first, then the error check, then
the routing model's structured decision.  `decision.finalResponse ||
'Task completed.'` is JS truthiness: the empty string also falls back. -/
def route (s : GState) (d : SupDecision) : RouteResult :=
  if MAX_ITERATIONS ≤ s.iterationCount then
    { next := ENDSentinel, finalResponse := some maxStepsMessage, currentWorker := none }
  else
    match s.error with
    | some e =>
        { next := ENDSentinel, finalResponse := some ("An error occurred: " ++ e), currentWorker := none }
    | none =>
        match d with
        | .finish fr =>
            let r := match fr with
              | some x => if x = "" then "Task completed." else x
              | none => "Task completed."
            { next := ENDSentinel, finalResponse := some r, currentWorker := none }
        | .toWorker w =>
            { next := w, finalResponse := none, currentWorker := some w }
        | .failure =>
            { next := ENDSentinel, finalResponse := some genericErrorMessage, currentWorker := none }

/-- `filterMessagesForSupervisor` applied to one message: a tool-result
longer than `MAX_TOOL_OUTPUT_LENGTH` is replaced (in the supervisor's view
only) by a fresh `ToolMessage` with the 500-character prefix plus
`"... [truncated]"`. -/
def truncateForSupervisor (m : Msg) : Msg :=
  match m.body with
  | .toolRes cid content =>
      if MAX_TOOL_OUTPUT_LENGTH < content.length then
        ⟨none, .toolRes cid (content.take MAX_TOOL_OUTPUT_LENGTH ++ "... [truncated]")⟩
      else m
  | _ => m

/-- `Supervisor.filterMessagesForSupervisor`. -/
def filterMessagesForSupervisor (msgs : List Msg) : List Msg :=
  msgs.map truncateForSupervisor

/-- `Supervisor.pruneMessages`: keep the most recent `maxCount` messages. -/
def pruneMessages (msgs : List Msg) (maxCount : Nat) : List Msg :=
  if msgs.length ≤ maxCount then msgs
  else msgs.drop (msgs.length - maxCount)

/-! ### VerbOSGraph.ts: node handlers and reducer application -/

/-- The supervisor node handler of `buildGraph` followed by the reducers:
route, then commit `{next, finalResponse, currentWorker, iterationCount:
count+1, workerIterationCount: 0, taskComplete: false}`.  All three
counter/flag updates are explicit values, so each replace-style reducer
stores them as given; the channels absent from the update (`messages`,
`pendingAction`, `awaitingApproval`, `error`, `taskSummary`) are
untouched. -/
def supervisorNodeStep (s : GState) (d : SupDecision) : GState :=
  let rr := route s d
  { s with
    next := rr.next
    finalResponse := rr.finalResponse
    currentWorker := rr.currentWorker
    iterationCount := s.iterationCount + 1
    workerIterationCount := 0
    taskComplete := false }

/-- `createWorkerNode`'s handler followed by the reducers.  `currentWorker`
is the worker while approval is pending or while `result.taskComplete` is
not `true` (JS `!result.taskComplete` on an optional field).  The committed
`taskComplete` is `result.taskComplete ?? false`; the `taskSummary` update
is `result.taskSummary ?? null`, and the channel's `next ?? current`
reducer therefore keeps the previous summary when the worker supplied
none. -/
def workerNodeStep (w : String) (s : GState) (r : WorkerResult) : GState :=
  let cw : Option String :=
    if r.awaitingApproval then some w
    else if r.taskComplete ≠ some true then some w
    else none
  { s with
    messages := messagesReducer s.messages r.messages
    pendingAction := r.pendingAction
    awaitingApproval := r.awaitingApproval
    currentWorker := cw
    taskComplete := r.taskComplete.getD false
    taskSummary := match r.taskSummary with
      | some x => some x
      | none => s.taskSummary
    workerIterationCount := s.workerIterationCount + 1 }

/-- The `human_approval` node body: `{awaitingApproval: false}`. -/
def humanApprovalStep (s : GState) : GState :=
  { s with awaitingApproval := false }

/-- `workerToNextConditional` from VerbOSGraph.ts: the worker's outgoing
conditional edge. -/
def workerToNext (w : String) (s : GState) : String :=
  if s.awaitingApproval then "human_approval"
  else if s.taskComplete then "supervisor"
  else if MAX_WORKER_ITERATIONS ≤ s.workerIterationCount then "supervisor"
  else w

/-- The new-turn input of `VerbOSGraph.stream` applied through the
reducers: append the user message; set both counters to 0 and
`taskComplete` to false; clear `error` and `finalResponse` (replace
reducers); the explicit `taskSummary: null` goes through the
`next ?? current` reducer and therefore KEEPS the previous summary. -/
def applyNewTurnInput (s : GState) (input : String) : GState :=
  { s with
    messages := messagesReducer s.messages [⟨none, .user input⟩]
    iterationCount := 0
    workerIterationCount := 0
    taskComplete := false
    error := none
    finalResponse := none }

/-- The resume input of `VerbOSGraph.stream` (`{awaitingApproval: false,
pendingAction: null}`) applied through the reducers. -/
def applyResumeInput (s : GState) : GState :=
  { s with awaitingApproval := false, pendingAction := none }

/-! ### approveAction / denyAction (VerbOSGraph.ts) -/

/-- A worker registry: worker name to tool list (`this.workers`, reduced to
what approval execution needs). -/
def lookupWorker (registry : List (String × List Tool)) (w : String) : Option (List Tool) :=
  (registry.find? (fun kv => kv.1 = w)).map (fun kv => kv.2)

/-- The `updateState` call of `approveAction`: merge the tool-result
messages, clear the pending action, drop the approval flag. -/
def applyApproveUpdate (s : GState) (resultMessages : List Msg) : GState :=
  { s with
    messages := messagesReducer s.messages resultMessages
    pendingAction := none
    awaitingApproval := false }

/-- `VerbOSGraph.approveAction`: throw when there is no pending action or
no current worker, throw when the named worker is absent from the
registry; only then execute the pending action and write the update.  An
`Except.error` is a throw before any tool execution or state write. -/
def approveAction (registry : List (String × List Tool)) (s : GState) :
    Except String GState :=
  match s.pendingAction, s.currentWorker with
  | none, _ => .error "No pending action to approve"
  | _, none => .error "No pending action to approve"
  | some pa, some cw =>
      match lookupWorker registry cw with
      | none => .error ("Worker " ++ cw ++ " not found")
      | some tools =>
          .ok (applyApproveUpdate s (executePendingAction tools pa))

/-- `VerbOSGraph.denyAction`: throw when there is no pending action;
otherwise append the synthetic denial message and clear the approval
state. -/
def denyAction (s : GState) (reason : Option String) : Except String GState :=
  match s.pendingAction with
  | none => .error "No pending action to deny"
  | some _ =>
      let denyMessage := match reason with
        | some r => "Action denied by user: " ++ r
        | none => "Action denied by user"
      .ok { s with
            messages := messagesReducer s.messages [⟨none, .user denyMessage⟩]
            pendingAction := none
            awaitingApproval := false }

/-! ### The compiled graph as a small-step machine

A configuration is the committed state plus where control sits: at the
supervisor, at a worker node, interrupted before `human_approval`
(`interruptBefore: ['human_approval']` pauses there and checkpoints), or
idle/ended.  Each action corresponds to one node execution plus its
outgoing edge, or to one orchestrator API call.  The model decisions and
tool outcomes are oracle parameters, so reachability quantifies over every
possible model/tool behaviour. -/

inductive GNode
  | supervisor
  | workerAt (w : String)
  | humanApproval
  | done
  deriving DecidableEq, Repr

/-- A machine configuration: control point plus committed state. -/
structure Config where
  node : GNode
  state : GState
  deriving DecidableEq, Repr

/-- One external or internal action of a run. -/
inductive OAct
  | newTurn (input : String)
  | supStep (d : SupDecision)
  | workStep (outcome : InvokeOutcome)
  | resumeRun
  | approveAct
  | denyAct (reason : Option String)

/-- One step of the machine.  `none` means the action does not apply at
this control point (or the orchestrator call threw, leaving the thread
unchanged).

* `newTurn`: `stream` on a thread that is not paused-for-approval — apply
  the fresh-turn input and enter the graph at the supervisor (the
  `START → supervisor` edge).  Invoked on a thread interrupted before
  `human_approval` whose `awaitingApproval` was already cleared, the run
  continues through the pending `human_approval` node first.
* `supStep`: run the supervisor node, then its conditional edge
  (`END` when `next` is the sentinel, otherwise the named worker).
* `workStep`: run the worker node (`worker.process` on the model outcome),
  then `workerToNextConditional`.
* `resumeRun`: `stream` on a paused thread (`next` non-empty and
  `awaitingApproval`): apply the resume input, execute the pending
  `human_approval` node, follow its unconditional edge to the supervisor.
* `approveAct` / `denyAct`: the orchestrator API calls; they only write
  state, control stays at the interrupt. -/
def execAct (registry : List (String × List Tool)) (c : Config) (a : OAct) : Option Config :=
  match a with
  | .newTurn input =>
      match c.node with
      | .done => some ⟨.supervisor, applyNewTurnInput c.state input⟩
      | .humanApproval =>
          if c.state.awaitingApproval then none
          else some ⟨.supervisor, humanApprovalStep (applyNewTurnInput c.state input)⟩
      | _ => none
  | .supStep d =>
      match c.node with
      | .supervisor =>
          let s' := supervisorNodeStep c.state d
          some ⟨if s'.next = ENDSentinel then .done else .workerAt s'.next, s'⟩
      | _ => none
  | .workStep outcome =>
      match c.node with
      | .workerAt w =>
          let tools := (lookupWorker registry w).getD []
          let s' := workerNodeStep w c.state (process w tools outcome)
          let target := workerToNext w s'
          some ⟨if target = "human_approval" then .humanApproval
                else if target = "supervisor" then .supervisor
                else .workerAt target, s'⟩
      | _ => none
  | .resumeRun =>
      match c.node with
      | .humanApproval =>
          if c.state.awaitingApproval then
            some ⟨.supervisor, humanApprovalStep (applyResumeInput c.state)⟩
          else none
      | _ => none
  | .approveAct =>
      match c.node with
      | .humanApproval =>
          match approveAction registry c.state with
          | .ok s' => some ⟨.humanApproval, s'⟩
          | .error _ => none
      | _ => none
  | .denyAct reason =>
      match c.node with
      | .humanApproval =>
          match denyAction c.state reason with
          | .ok s' => some ⟨.humanApproval, s'⟩
          | .error _ => none
      | _ => none

/-- The idle configuration of a fresh thread. -/
def initConfig : Config := ⟨.done, initState⟩

/-- Run a list of actions from a configuration; `none` as soon as an action
does not apply.  A configuration is reachable iff some action list reaches
it from `initConfig`. -/
def runActs (registry : List (String × List Tool)) : Config → List OAct → Option Config
  | c, [] => some c
  | c, a :: rest =>
      match execAct registry c a with
      | some c' => runActs registry c' rest
      | none => none

/-! ### SQLiteCheckpointer.ts -/

/-- A row of `graph_checkpoints`.  Payloads and their `type` tags are kept
opaque (`serde.dumpsTyped`/`loadsTyped` round-trip them). -/
structure CkptRow where
  threadId : String
  ns : String
  ckptId : String
  parent : Option String
  ckpt : String
  meta : String
  createdAt : Nat
  deriving DecidableEq, Repr

/-- A row of `graph_writes`. -/
structure WriteRow where
  threadId : String
  ns : String
  ckptId : String
  taskId : String
  idx : Nat
  channel : String
  value : Option String
  deriving DecidableEq, Repr

/-- The two checkpointer tables. -/
structure CkptDB where
  ckpts : List CkptRow
  writes : List WriteRow
  deriving DecidableEq, Repr

/-- What `getTuple` returns (config echo, payloads, parent link, pending
writes as `(task_id, channel, value)` ordered by `idx`). -/
structure CkptTuple where
  threadId : String
  ns : String
  ckptId : String
  parent : Option String
  ckpt : String
  meta : String
  pendingWrites : List (String × String × Option String)
  deriving DecidableEq, Repr

/-- `ORDER BY created_at DESC LIMIT 1` over the matching rows: a row of
maximal `created_at` (SQLite's tie order is unspecified; the fold keeps the
first maximal row). -/
def latestRow : List CkptRow → Option CkptRow
  | [] => none
  | r :: rest =>
      match latestRow rest with
      | none => some r
      | some b => some (if b.createdAt > r.createdAt then b else r)

/-- Insertion by `idx` (`ORDER BY idx`). -/
def insertByIdx (w : WriteRow) : List WriteRow → List WriteRow
  | [] => [w]
  | x :: xs => if w.idx ≤ x.idx then w :: x :: xs else x :: insertByIdx w xs

/-- Sort write rows by `idx`. -/
def sortByIdx (l : List WriteRow) : List WriteRow := l.foldr insertByIdx []

/-- The pending-writes query of `getTuple`. -/
def writesFor (db : CkptDB) (t ns cid : String) : List WriteRow :=
  sortByIdx (db.writes.filter (fun w => w.threadId = t ∧ w.ns = ns ∧ w.ckptId = cid))

/-- The checkpoint row `getTuple` selects: exact when a `checkpoint_id` is
given (the primary key makes it unique, so the first match is the row),
otherwise the newest row of the `(thread_id, checkpoint_ns)` pair. -/
def selectRow (db : CkptDB) (t ns : String) (cid : Option String) : Option CkptRow :=
  match cid with
  | some c => (db.ckpts.filter (fun r => r.threadId = t ∧ r.ns = ns ∧ r.ckptId = c)).head?
  | none => latestRow (db.ckpts.filter (fun r => r.threadId = t ∧ r.ns = ns))

/-- `SQLiteCheckpointer.getTuple`. -/
def getTuple (db : CkptDB) (t ns : String) (cid : Option String) : Option CkptTuple :=
  (selectRow db t ns cid).map (fun r =>
    { threadId := t
      ns := ns
      ckptId := r.ckptId
      parent := r.parent
      ckpt := r.ckpt
      meta := r.meta
      pendingWrites := (writesFor db t ns r.ckptId).map (fun w => (w.taskId, w.channel, w.value)) })

/-- `SQLiteCheckpointer.deleteThread`: one transaction deleting every write
row and then every checkpoint row of the thread. -/
def deleteThread (db : CkptDB) (t : String) : CkptDB :=
  { writes := db.writes.filter (fun w => ¬ w.threadId = t)
    ckpts := db.ckpts.filter (fun r => ¬ r.threadId = t) }

/-! ### Derived notions and sample inputs used by the statements -/

/-- The `tool_call_id` a message resolves, when it is a tool-result. -/
def resolvedId (m : Msg) : Option String :=
  match m.body with
  | .toolRes cid _ => some cid
  | _ => none

/-- A tool call that `process` treats as sensitive: its tool exists in the
worker's registry (the not-found check precedes classification) and the
sensitivity classifier says `sensitive`. -/
def sensFound (tools : List Tool) (c : ToolCall) : Bool :=
  (findTool tools c.name).isSome && decide (getToolSensitivity c.name c.args = .sensitive)

/-- A sample single-tool registry for concrete runs. -/
def sampleFsTools : List Tool :=
  [{ name := "write_file", behavior := fun _ => .ok "ok" },
   { name := "read_file", behavior := fun _ => .ok "data" }]

/-- A sample worker registry for concrete runs. -/
def sampleRegistry : List (String × List Tool) :=
  [("system_worker", [])]

/-- A run of one user turn whose supervisor keeps routing to the system
worker while the worker completes every step: the supervisor is entered
`MAX_ITERATIONS + 1` times, the last entry hitting the iteration ceiling. -/
def maxStepsTrace : List OAct :=
  .newTurn "hi" ::
  ((List.replicate MAX_ITERATIONS
      [OAct.supStep (.toWorker "system_worker"), OAct.workStep (.ok "done" [])]).flatten
   ++ [OAct.supStep (.toWorker "system_worker")])

/-- A 501-character tool output, one character over the truncation bound. -/
def longToolOutput : String := String.mk (List.replicate 501 'a')

/-! ## Theorems -/

/-- Appending a single id-less message is a plain append. -/
theorem messagesReducer_single (prev : List Msg) (b : MsgBody) :
    messagesReducer prev [⟨none, b⟩] = prev ++ [⟨none, b⟩] := by
  simp [messagesReducer, upsertMsg]

/-- Claim C2: when the invoked model's assistant response contains no tool
calls, the worker node commits exactly that assistant message appended to
`messages`, `taskComplete = true`, and
`taskSummary = "[<worker name>] Processed request"`. -/
theorem claim2_no_tool_calls (w content : String) (tools : List Tool) (s : GState) :
    (workerNodeStep w s (process w tools (.ok content []))).messages
        = s.messages ++ [⟨none, .assistant content []⟩]
    ∧ (workerNodeStep w s (process w tools (.ok content []))).taskComplete = true
    ∧ (workerNodeStep w s (process w tools (.ok content []))).taskSummary
        = some ("[" ++ w ++ "] Processed request") := by
  refine ⟨?_, ?_, ?_⟩ <;>
    simp [process, workerNodeStep, generateTaskSummary, summaryParts,
      messagesReducer_single]

/-- Claim C3: the worker's outgoing conditional edge targets
`human_approval` when `awaitingApproval` holds (whatever the other flags),
otherwise `supervisor` when `taskComplete`, otherwise `supervisor` when the
worker-iteration ceiling is reached, and otherwise the worker itself. -/
theorem claim3_worker_edge (w : String) (s : GState) :
    (s.awaitingApproval = true → workerToNext w s = "human_approval")
    ∧ (s.awaitingApproval = false → s.taskComplete = true → workerToNext w s = "supervisor")
    ∧ (s.awaitingApproval = false → s.taskComplete = false →
        MAX_WORKER_ITERATIONS ≤ s.workerIterationCount → workerToNext w s = "supervisor")
    ∧ (s.awaitingApproval = false → s.taskComplete = false →
        s.workerIterationCount < MAX_WORKER_ITERATIONS → workerToNext w s = w) := by
  refine ⟨fun h => ?_, fun h h2 => ?_, fun h h2 h3 => ?_, fun h h2 h3 => ?_⟩ <;>
    simp [workerToNext, h, *]

/-- Witness for C3: each edge case at a concrete state. -/
theorem claim3_worker_edge_witness :
    workerToNext "code_worker" { initState with awaitingApproval := true, taskComplete := true }
        = "human_approval"
    ∧ workerToNext "code_worker" { initState with taskComplete := true } = "supervisor"
    ∧ workerToNext "code_worker" { initState with workerIterationCount := 5 } = "supervisor"
    ∧ workerToNext "code_worker" { initState with workerIterationCount := 4 } = "code_worker" :=
  ⟨(claim3_worker_edge _ _).1 rfl,
   (claim3_worker_edge _ _).2.1 rfl rfl,
   (claim3_worker_edge _ _).2.2.1 rfl rfl (by decide),
   (claim3_worker_edge _ _).2.2.2 rfl rfl (by decide)⟩

/-- Claim C5 (amended): a non-resuming `stream` call applies the fresh-turn
input: the user message is appended, both counters are 0, `taskComplete`
is false, `error` and `finalResponse` are cleared — but the explicit
`taskSummary: null` update goes through the channel's `next ?? current`
reducer, so the previous turn's summary is KEPT, not cleared. -/
theorem claim5_new_turn_input (s : GState) (input : String) :
    (applyNewTurnInput s input).messages = s.messages ++ [⟨none, .user input⟩]
    ∧ (applyNewTurnInput s input).iterationCount = 0
    ∧ (applyNewTurnInput s input).workerIterationCount = 0
    ∧ (applyNewTurnInput s input).taskComplete = false
    ∧ (applyNewTurnInput s input).error = none
    ∧ (applyNewTurnInput s input).finalResponse = none
    ∧ (applyNewTurnInput s input).taskSummary = s.taskSummary := by
  refine ⟨?_, rfl, rfl, rfl, rfl, rfl, rfl⟩
  simp [applyNewTurnInput, messagesReducer_single]

/-- Counterexample for C5 as stated: a leftover `taskSummary` survives the
new-turn input instead of being cleared to null. -/
theorem claim5_counterexample :
    (applyNewTurnInput
        { initState with taskSummary := some "[filesystem_worker] Result: ok" }
        "hello").taskSummary ≠ none := by
  decide

/-- Claim C6 (amended): for identical tool behaviour and arguments, the
tool-result produced by approval-time execution (`executePendingAction`)
carries the same `tool_call_id` and the same content as the tool-result
the worker would have appended inline had the call been classified
non-sensitive — whenever the tool returns a value or throws an `Error`.
(The exception, forced by the counterexample: a thrown non-`Error` value
renders as `String(error)` inline but as `"Unknown error"` on the
approval path.) -/
theorem claim6_approve_exec_equivalence
    (behavior : List (String × String) → ToolOutcome)
    (nameInline nameSens wname content desc cid : String)
    (args : List (String × String))
    (hclass : getToolSensitivity nameInline args ≠ .sensitive)
    (hnoV : ∀ v, behavior args ≠ .errV v) :
    ∃ c : String,
      (process wname [{ name := nameInline, behavior := behavior }]
          (.ok content [⟨nameInline, args, cid⟩])).messages
        = [⟨none, .assistant content [⟨nameInline, args, cid⟩]⟩, ⟨none, .toolRes cid c⟩]
      ∧ executePendingAction [{ name := nameSens, behavior := behavior }]
          ⟨cid, wname, nameSens, args, .sensitive, desc⟩
        = [⟨none, .toolRes cid c⟩] := by
  cases hb : behavior args with
  | ok r =>
      refine ⟨r, ?_, by simp [executePendingAction, findTool, hb]⟩
      cases hcs : getToolSensitivity nameInline args with
      | sensitive => exact absurd hcs hclass
      | safe => simp [process, processCallsAux, findTool, hcs, execToolMsg, hb]
      | moderate => simp [process, processCallsAux, findTool, hcs, execToolMsg, hb]
  | errE m =>
      refine ⟨"Error: " ++ m, ?_, by simp [executePendingAction, findTool, hb]⟩
      cases hcs : getToolSensitivity nameInline args with
      | sensitive => exact absurd hcs hclass
      | safe => simp [process, processCallsAux, findTool, hcs, execToolMsg, hb]
      | moderate => simp [process, processCallsAux, findTool, hcs, execToolMsg, hb]
  | errV v => exact absurd hb (hnoV v)

/-- Witness for C6: a concrete succeeding write executed inline under a
safe name and via approval under a sensitive name. -/
theorem claim6_approve_exec_equivalence_witness :
    getToolSensitivity "read_file" [("path", "/a")] ≠ .sensitive
    ∧ (∀ v, (fun _ : List (String × String) => ToolOutcome.ok "written") [("path", "/a")] ≠ .errV v)
    ∧ ∃ c : String,
        (process "w" [{ name := "read_file", behavior := fun _ => ToolOutcome.ok "written" }]
            (.ok "" [⟨"read_file", [("path", "/a")], "c1"⟩])).messages
          = [⟨none, .assistant "" [⟨"read_file", [("path", "/a")], "c1"⟩]⟩, ⟨none, .toolRes "c1" c⟩]
        ∧ executePendingAction [{ name := "write_file", behavior := fun _ => ToolOutcome.ok "written" }]
            ⟨"c1", "w", "write_file", [("path", "/a")], .sensitive, "Write to file: /a"⟩
          = [⟨none, .toolRes "c1" c⟩] :=
  ⟨by decide, fun v h => ToolOutcome.noConfusion h,
   claim6_approve_exec_equivalence (fun _ => ToolOutcome.ok "written")
     "read_file" "write_file" "w" "" "Write to file: /a" "c1" [("path", "/a")]
     (by decide) (fun v h => ToolOutcome.noConfusion h)⟩

/-- Counterexample for C6 as stated: a tool that throws a non-`Error`
value yields `"Error: boom"` inline but `"Error: Unknown error"` through
approval, so the contents differ even with identical tool behaviour. -/
theorem claim6_counterexample :
    (process "w" [{ name := "read_file", behavior := fun _ => ToolOutcome.errV "boom" }]
        (.ok "" [⟨"read_file", [], "id1"⟩])).messages
      = [⟨none, .assistant "" [⟨"read_file", [], "id1"⟩]⟩, ⟨none, .toolRes "id1" "Error: boom"⟩]
    ∧ executePendingAction [{ name := "delete_file", behavior := fun _ => ToolOutcome.errV "boom" }]
        ⟨"id1", "w", "delete_file", [], .sensitive, "Delete file: undefined"⟩
      = [⟨none, .toolRes "id1" "Error: Unknown error"⟩]
    ∧ ("Error: boom" : String) ≠ "Error: Unknown error" := by
  refine ⟨?_, ?_, by decide⟩ <;> decide

/-- Claim C8 (amended): in the supervisor's view every tool-result longer
than `MAX_TOOL_OUTPUT_LENGTH` = 500 characters is replaced by its
500-character prefix plus the ASCII suffix `"... [truncated]"` (the spec
writes the ellipsis as a single character, the code uses three dots), and
the supervisor node's committed update leaves the `messages` channel
untouched. -/
theorem claim8_truncation (s : GState) (d : SupDecision)
    (msgs : List Msg) (mid : Option String) (cid content : String)
    (h : MAX_TOOL_OUTPUT_LENGTH < content.length) :
    filterMessagesForSupervisor (msgs ++ [⟨mid, .toolRes cid content⟩])
      = filterMessagesForSupervisor msgs
        ++ [⟨none, .toolRes cid (content.take MAX_TOOL_OUTPUT_LENGTH ++ "... [truncated]")⟩]
    ∧ (supervisorNodeStep s d).messages = s.messages := by
  constructor
  · simp [filterMessagesForSupervisor, truncateForSupervisor, h]
  · rfl

/-- The sample long output has 501 characters. -/
theorem longToolOutput_length : longToolOutput.length = 501 := by
  show (List.replicate 501 'a').length = 501
  rw [List.length_replicate]

/-- Witness for C8: a 501-character tool output. -/
theorem claim8_truncation_witness :
    MAX_TOOL_OUTPUT_LENGTH < longToolOutput.length
    ∧ (filterMessagesForSupervisor ([] ++ [⟨some "m1", .toolRes "c1" longToolOutput⟩])
        = filterMessagesForSupervisor []
          ++ [⟨none, .toolRes "c1" (longToolOutput.take MAX_TOOL_OUTPUT_LENGTH ++ "... [truncated]")⟩]
       ∧ (supervisorNodeStep initState .failure).messages = initState.messages) :=
  ⟨by rw [longToolOutput_length]; decide,
   claim8_truncation initState .failure [] (some "m1") "c1" longToolOutput
     (by rw [longToolOutput_length]; decide)⟩

/-- Counterexample for C8 as stated: the suffix appended by the code is
the ASCII `"... [truncated]"`, not the claim's `"… [truncated]"`. -/
theorem claim8_counterexample :
    MAX_TOOL_OUTPUT_LENGTH = 500
    ∧ filterMessagesForSupervisor [⟨none, .toolRes "c1" longToolOutput⟩]
      = [⟨none, .toolRes "c1" (longToolOutput.take MAX_TOOL_OUTPUT_LENGTH ++ "... [truncated]")⟩]
    ∧ filterMessagesForSupervisor [⟨none, .toolRes "c1" longToolOutput⟩]
      ≠ [⟨none, .toolRes "c1" (longToolOutput.take MAX_TOOL_OUTPUT_LENGTH ++ "… [truncated]")⟩] := by
  have hlen : MAX_TOOL_OUTPUT_LENGTH < longToolOutput.length := by
    rw [longToolOutput_length]; decide
  have heq : filterMessagesForSupervisor [⟨none, .toolRes "c1" longToolOutput⟩]
      = [⟨none, .toolRes "c1" (longToolOutput.take MAX_TOOL_OUTPUT_LENGTH ++ "... [truncated]")⟩] := by
    simp [filterMessagesForSupervisor, truncateForSupervisor, hlen]
  refine ⟨rfl, heq, ?_⟩
  rw [heq]
  simp only [ne_eq, List.cons.injEq, and_true, Msg.mk.injEq, MsgBody.toolRes.injEq, true_and]
  intro h
  have h2 := congrArg String.length h
  rw [String.length_append, String.length_append] at h2
  have h3 : ("... [truncated]" : String).length = ("… [truncated]" : String).length := by omega
  revert h3
  decide

/-- Claim C10: `approveAction` throws when the thread has no pending
action, no current worker, or a current worker absent from the registry;
`denyAction` throws when there is no pending action; and in each such case
no tool runs and no state update is written — the machine configuration is
unchanged (the failed call yields no transition). -/
theorem claim10_approve_deny_guards (registry : List (String × List Tool)) (s : GState)
    (reason : Option String) :
    (s.pendingAction = none → approveAction registry s = .error "No pending action to approve")
    ∧ (s.currentWorker = none → approveAction registry s = .error "No pending action to approve")
    ∧ (∀ pa cw, s.pendingAction = some pa → s.currentWorker = some cw →
        lookupWorker registry cw = none →
        approveAction registry s = .error ("Worker " ++ cw ++ " not found"))
    ∧ (s.pendingAction = none → denyAction s reason = .error "No pending action to deny")
    ∧ (∀ e, approveAction registry s = .error e →
        execAct registry ⟨.humanApproval, s⟩ .approveAct = none)
    ∧ (∀ e, denyAction s reason = .error e →
        execAct registry ⟨.humanApproval, s⟩ (.denyAct reason) = none) := by
  refine ⟨fun h => ?_, fun h => ?_, fun pa cw hpa hcw hlk => ?_, fun h => ?_,
    fun e h => ?_, fun e h => ?_⟩
  · simp [approveAction, h]
  · cases hpa : s.pendingAction <;> simp [approveAction, hpa, h]
  · simp [approveAction, hpa, hcw, hlk]
  · simp [denyAction, h]
  · simp [execAct, h]
  · simp [execAct, h]

/-- Witness for C10: concrete failing calls. -/
theorem claim10_approve_deny_guards_witness :
    approveAction sampleRegistry initState = .error "No pending action to approve"
    ∧ approveAction sampleRegistry
        { initState with
            pendingAction := some ⟨"c1", "ghost_worker", "write_file", [], .sensitive, "d"⟩,
            currentWorker := some "ghost_worker" }
        = .error ("Worker " ++ "ghost_worker" ++ " not found")
    ∧ denyAction initState none = .error "No pending action to deny"
    ∧ execAct sampleRegistry ⟨.humanApproval, initState⟩ .approveAct = none :=
  ⟨(claim10_approve_deny_guards sampleRegistry initState none).1 rfl,
   (claim10_approve_deny_guards sampleRegistry _ none).2.2.1
     ⟨"c1", "ghost_worker", "write_file", [], .sensitive, "d"⟩ "ghost_worker" rfl rfl rfl,
   (claim10_approve_deny_guards sampleRegistry initState none).2.2.2.1 rfl,
   (claim10_approve_deny_guards sampleRegistry initState none).2.2.2.2.1 _
     ((claim10_approve_deny_guards sampleRegistry initState none).1 rfl)⟩

/-- A command that passes `validateCommand` has no blocked pattern. -/
theorem validateCommand_ok_no_blocked (cmd : String) (h : validateCommand cmd = .ok ()) :
    hasBlockedPattern cmd = false := by
  simp only [validateCommand] at h
  split_ifs at h with h1 h2 h3
  all_goals simp_all

/-- Claim C7 (amended): the command classifier never returns `moderate`;
it returns `safe` exactly for the read-only/diagnostic commands without an
output redirect and for the read-only `git`/`npm` subcommands, and
`sensitive` for everything else (including build/VCS commands such as
`git commit` or `npm install`, which the original claim called moderate);
and in the shell tool's execution path any command containing a blocked
pattern fails `validateCommand`, which runs before `getCommandSensitivity`,
so such a command is never classified there. -/
theorem claim7_shell_classifier :
    (∀ cmd : String, getCommandSensitivity cmd ≠ .moderate)
    ∧ (∀ cmd : String, hasBlockedPattern cmd = true → ∃ e, shellToolPrecheck cmd = .error e)
    ∧ (∀ cmd : String,
        getCommandSensitivity cmd = .safe ↔
          ((safeShellCommands.contains ((splitWs (toLowerStr (trimStr cmd))).headD "") = true
              ∧ containsChar (toLowerStr (trimStr cmd)) '>' = false)
           ∨ ((splitWs (toLowerStr (trimStr cmd))).headD "" = "git"
              ∧ safeGitSubcommands.contains (((splitWs (toLowerStr (trimStr cmd))).drop 1).headD "") = true)
           ∨ ((splitWs (toLowerStr (trimStr cmd))).headD "" = "npm"
              ∧ safeNpmSubcommands.contains (((splitWs (toLowerStr (trimStr cmd))).drop 1).headD "") = true))) := by
  refine ⟨fun cmd => ?_, fun cmd h => ?_, fun cmd => ?_⟩
  · simp only [getCommandSensitivity]
    split_ifs <;> simp
  · cases hval : validateCommand cmd with
    | error e => exact ⟨e, by simp [shellToolPrecheck, hval]⟩
    | ok u =>
        cases u
        exact absurd h (by simp [validateCommand_ok_no_blocked cmd hval])
  · simp only [getCommandSensitivity]
    split_ifs with h1 h2 h3 h4
    · simp only [true_iff]
      exact Or.inl ⟨by simpa using h1.1, by simpa using h1.2⟩
    · simp only [true_iff]
      exact Or.inr (Or.inl ⟨h3.1, by simpa using h3.2⟩)
    · simp only [true_iff]
      exact Or.inr (Or.inr ⟨h4.1, by simpa using h4.2⟩)
    · simp only [reduceCtorEq, false_iff]
      push_neg
      refine ⟨fun hs hg => ?_, fun hg hsub => ?_, fun hn hsub => ?_⟩
      · exact absurd ⟨by simpa using hs, by simpa using hg⟩ h1
      · exact absurd ⟨hg, by simpa using hsub⟩ h3
      · exact absurd ⟨hn, by simpa using hsub⟩ h4
    · simp only [reduceCtorEq, false_iff]
      push_neg
      refine ⟨fun hs hg => ?_, fun hg _ => ?_, fun hn _ => ?_⟩
      · exact absurd ⟨by simpa using hs, by simpa using hg⟩ h1
      · exact absurd (show moderateShellCommands.contains ((splitWs (toLowerStr (trimStr cmd))).headD "") = true by
            rw [hg]; decide) h2
      · exact absurd (show moderateShellCommands.contains ((splitWs (toLowerStr (trimStr cmd))).headD "") = true by
            rw [hn]; decide) h2

/-- Witness for C7: the never-moderate fact at `sudo reboot`, the
pre-classification rejection at a chained command, and the safe
classification of `git status`. -/
theorem claim7_shell_classifier_witness :
    getCommandSensitivity "sudo reboot" ≠ .moderate
    ∧ (∃ e, shellToolPrecheck "ls; rm x" = .error e)
    ∧ getCommandSensitivity "git status" = .safe :=
  ⟨claim7_shell_classifier.1 "sudo reboot",
   claim7_shell_classifier.2.1 "ls; rm x" (by decide),
   (claim7_shell_classifier.2.2 "git status").mpr (by decide)⟩

/-- Counterexample for C7 as stated: `git status` is a VCS command without
a write subcommand, yet the classifier returns `safe`, not `moderate` (the
classifier has no `moderate` outcome at all). -/
theorem claim7_counterexample :
    getCommandSensitivity "git status" ≠ .moderate
    ∧ getCommandSensitivity "git status" = .safe := by
  refine ⟨?_, ?_⟩ <;> decide

/-- Filtering twice with contradictory predicates leaves nothing. -/
theorem filterFilterExcl {α : Type} (P Q : α → Bool) (l : List α)
    (h : ∀ a, Q a = true → P a = false) :
    (l.filter P).filter Q = [] := by
  induction l with
  | nil => rfl
  | cons a t ih =>
      rw [List.filter_cons]
      cases hP : P a with
      | false => simpa using ih
      | true =>
          have hQ : Q a = false := by
            cases hQt : Q a
            · rfl
            · rw [h a hQt] at hP
              exact Bool.noConfusion hP
          simpa [List.filter_cons, hQ] using ih

/-- An inner filter implied by the outer one is absorbed. -/
theorem filterFilterAbsorb {α : Type} (P Q : α → Bool) (l : List α)
    (h : ∀ a, Q a = true → P a = true) :
    (l.filter P).filter Q = l.filter Q := by
  induction l with
  | nil => rfl
  | cons a t ih =>
      rw [List.filter_cons]
      cases hP : P a with
      | true => simp [List.filter_cons, hP, ih]
      | false =>
          have hQ : Q a = false := by
            cases hQt : Q a
            · rfl
            · rw [h a hQt] at hP
              exact Bool.noConfusion hP
          simp [List.filter_cons, hP, hQ, ih]

/-- After `deleteThread t`, no checkpoint row of thread `t` is selected. -/
theorem selectRow_deleteThread_self (db : CkptDB) (t ns : String) (cid : Option String) :
    selectRow (deleteThread db t) t ns cid = none := by
  cases cid with
  | some c =>
      show ((db.ckpts.filter _).filter _).head? = none
      rw [filterFilterExcl]
      · rfl
      · intro a ha
        have hm : a.threadId = t ∧ a.ns = ns ∧ a.ckptId = c := of_decide_eq_true ha
        simpa using hm.1
  | none =>
      show latestRow ((db.ckpts.filter _).filter _) = none
      rw [filterFilterExcl]
      · rfl
      · intro a ha
        have hm : a.threadId = t ∧ a.ns = ns := of_decide_eq_true ha
        simpa using hm.1

/-- `deleteThread t` does not change which row another thread selects. -/
theorem selectRow_deleteThread_other (db : CkptDB) (t other ns : String)
    (cid : Option String) (h : other ≠ t) :
    selectRow (deleteThread db t) other ns cid = selectRow db other ns cid := by
  cases cid with
  | some c =>
      show ((db.ckpts.filter _).filter _).head? = _
      rw [filterFilterAbsorb]
      · rfl
      · intro a ha
        have hm : a.threadId = other ∧ a.ns = ns ∧ a.ckptId = c := of_decide_eq_true ha
        simp [hm.1, h]
  | none =>
      show latestRow ((db.ckpts.filter _).filter _) = _
      rw [filterFilterAbsorb]
      · rfl
      · intro a ha
        have hm : a.threadId = other ∧ a.ns = ns := of_decide_eq_true ha
        simp [hm.1, h]

/-- `deleteThread t` does not change the pending writes of another thread. -/
theorem writesFor_deleteThread_other (db : CkptDB) (t other ns cid : String)
    (h : other ≠ t) :
    writesFor (deleteThread db t) other ns cid = writesFor db other ns cid := by
  show sortByIdx ((db.writes.filter _).filter _) = _
  rw [filterFilterAbsorb]
  · rfl
  · intro a ha
    have hm : a.threadId = other ∧ a.ns = ns ∧ a.ckptId = cid := of_decide_eq_true ha
    simp [hm.1, h]

/-- Claim C9: after `deleteThread t`, `getTuple` for `t` returns none both
for the latest-checkpoint query and for any exact checkpoint-id query;
`getTuple` for any other thread is unchanged; and the surviving checkpoint
and write rows are exactly those of other threads. -/
theorem claim9_delete_thread (db : CkptDB) (t other ns : String) (cid : Option String)
    (h : other ≠ t) :
    getTuple (deleteThread db t) t ns cid = none
    ∧ getTuple (deleteThread db t) other ns cid = getTuple db other ns cid
    ∧ (∀ r : CkptRow, r ∈ (deleteThread db t).ckpts ↔ (r ∈ db.ckpts ∧ r.threadId ≠ t))
    ∧ (∀ wr : WriteRow, wr ∈ (deleteThread db t).writes ↔ (wr ∈ db.writes ∧ wr.threadId ≠ t)) := by
  refine ⟨?_, ?_, ?_, ?_⟩
  · unfold getTuple
    rw [selectRow_deleteThread_self]
    rfl
  · unfold getTuple
    rw [selectRow_deleteThread_other db t other ns cid h]
    cases hs : selectRow db other ns cid with
    | none => rfl
    | some r => simp [writesFor_deleteThread_other db t other ns r.ckptId h]
  · intro r
    simp [deleteThread, List.mem_filter]
  · intro wr
    simp [deleteThread, List.mem_filter]

/-- A sample store holding two threads. -/
def sampleDB : CkptDB :=
  { ckpts := [⟨"t1", "", "c1", none, "p1", "m1", 1⟩, ⟨"t2", "", "c2", none, "p2", "m2", 2⟩]
    writes := [⟨"t1", "", "c1", "task1", 0, "messages", some "v1"⟩,
               ⟨"t2", "", "c2", "task2", 0, "messages", some "v2"⟩] }

/-- Witness for C9 at a concrete two-thread store. -/
theorem claim9_delete_thread_witness :
    ("t2" : String) ≠ "t1"
    ∧ (getTuple (deleteThread sampleDB "t1") "t1" "" none = none
       ∧ getTuple (deleteThread sampleDB "t1") "t2" "" none = getTuple sampleDB "t2" "" none
       ∧ (∀ r : CkptRow, r ∈ (deleteThread sampleDB "t1").ckpts
            ↔ (r ∈ sampleDB.ckpts ∧ r.threadId ≠ "t1"))
       ∧ (∀ wr : WriteRow, wr ∈ (deleteThread sampleDB "t1").writes
            ↔ (wr ∈ sampleDB.writes ∧ wr.threadId ≠ "t1"))) :=
  ⟨by decide, claim9_delete_thread sampleDB "t1" "t2" "" none (by decide)⟩

/-- Inline execution resolves exactly the call's id. -/
theorem resolvedId_execToolMsg (t : Tool) (c : ToolCall) :
    resolvedId (execToolMsg t c) = some c.id := by
  unfold execToolMsg resolvedId
  cases t.behavior c.args <;> rfl

/-- The tool-call loop pushes exactly one tool-result per call, in order,
resolving exactly that call's id. -/
theorem processCallsAux_ids (w : String) (tools : List Tool) (pending : Option PendingAction)
    (calls : List ToolCall) :
    (processCallsAux w tools pending calls).1.map resolvedId
      = calls.map (fun tc => some tc.id) := by
  induction calls generalizing pending with
  | nil => rfl
  | cons c rest ih =>
      unfold processCallsAux
      cases hf : findTool tools c.name with
      | none => simp [resolvedId, ih]
      | some t =>
          cases hs : getToolSensitivity c.name c.args with
          | sensitive =>
              cases pending with
              | none => simp [resolvedId, ih]
              | some pa => simp [resolvedId, ih]
          | safe => simp [resolvedId_execToolMsg, ih]
          | moderate => simp [resolvedId_execToolMsg, ih]

/-- Once a pending action is queued it survives the rest of the loop, and
every later sensitive in-registry call receives the queued placeholder. -/
theorem processCallsAux_pending_stays (w : String) (tools : List Tool)
    (pa : PendingAction) (calls : List ToolCall) :
    (processCallsAux w tools (some pa) calls).2 = some pa
    ∧ ∀ c ∈ calls, sensFound tools c = true →
        (⟨none, .toolRes c.id "[Queued - previous action awaiting approval]"⟩ : Msg)
          ∈ (processCallsAux w tools (some pa) calls).1 := by
  induction calls with
  | nil => exact ⟨rfl, by simp⟩
  | cons c rest ih =>
      unfold processCallsAux
      cases hf : findTool tools c.name with
      | none =>
          refine ⟨ih.1, ?_⟩
          intro c' hc' hsf
          rcases List.mem_cons.mp hc' with rfl | hmem
          · simp [sensFound, hf] at hsf
          · exact List.mem_cons_of_mem _ (ih.2 c' hmem hsf)
      | some t =>
          cases hs : getToolSensitivity c.name c.args with
          | sensitive =>
              refine ⟨ih.1, ?_⟩
              intro c' hc' hsf
              rcases List.mem_cons.mp hc' with rfl | hmem
              · exact List.mem_cons_self _ _
              · exact List.mem_cons_of_mem _ (ih.2 c' hmem hsf)
          | safe =>
              refine ⟨ih.1, ?_⟩
              intro c' hc' hsf
              rcases List.mem_cons.mp hc' with rfl | hmem
              · simp [sensFound, hf, hs] at hsf
              · exact List.mem_cons_of_mem _ (ih.2 c' hmem hsf)
          | moderate =>
              refine ⟨ih.1, ?_⟩
              intro c' hc' hsf
              rcases List.mem_cons.mp hc' with rfl | hmem
              · simp [sensFound, hf, hs] at hsf
              · exact List.mem_cons_of_mem _ (ih.2 c' hmem hsf)

/-- The first sensitive in-registry call of the loop becomes the pending
action and gets the awaiting placeholder; every later sensitive
in-registry call gets the queued placeholder. -/
theorem processCallsAux_first_sensitive (w : String) (tools : List Tool)
    (pre post : List ToolCall) (c : ToolCall)
    (hc : sensFound tools c = true)
    (hpre : ∀ c' ∈ pre, sensFound tools c' = false) :
    (processCallsAux w tools none (pre ++ c :: post)).2 = some (mkPendingAction w c)
    ∧ (⟨none, .toolRes c.id "[Awaiting user approval]"⟩ : Msg)
        ∈ (processCallsAux w tools none (pre ++ c :: post)).1
    ∧ ∀ c' ∈ post, sensFound tools c' = true →
        (⟨none, .toolRes c'.id "[Queued - previous action awaiting approval]"⟩ : Msg)
          ∈ (processCallsAux w tools none (pre ++ c :: post)).1 := by
  induction pre with
  | nil =>
      obtain ⟨t, hf⟩ : ∃ t, findTool tools c.name = some t := by
        cases hft : findTool tools c.name with
        | none => simp [sensFound, hft] at hc
        | some t => exact ⟨t, rfl⟩
      have hs : getToolSensitivity c.name c.args = .sensitive := by
        have h2 := hc
        simp [sensFound, hf] at h2
        exact h2
      rw [List.nil_append]
      unfold processCallsAux
      simp only [hf, hs]
      have hstay := processCallsAux_pending_stays w tools (mkPendingAction w c) post
      exact ⟨hstay.1, List.mem_cons_self _ _,
        fun c' hm hsf => List.mem_cons_of_mem _ (hstay.2 c' hm hsf)⟩
  | cons p pre' ih =>
      have hp := hpre p (List.mem_cons_self _ _)
      have ih' := ih (fun c' hm => hpre c' (List.mem_cons_of_mem _ hm))
      rw [List.cons_append]
      unfold processCallsAux
      cases hf : findTool tools p.name with
      | none =>
          exact ⟨ih'.1, List.mem_cons_of_mem _ ih'.2.1,
            fun c' hm hsf => List.mem_cons_of_mem _ (ih'.2.2 c' hm hsf)⟩
      | some t =>
          cases hs : getToolSensitivity p.name p.args with
          | sensitive => simp [sensFound, hf, hs] at hp
          | safe =>
              exact ⟨ih'.1, List.mem_cons_of_mem _ ih'.2.1,
                fun c' hm hsf => List.mem_cons_of_mem _ (ih'.2.2 c' hm hsf)⟩
          | moderate =>
              exact ⟨ih'.1, List.mem_cons_of_mem _ ih'.2.1,
                fun c' hm hsf => List.mem_cons_of_mem _ (ih'.2.2 c' hm hsf)⟩

/-- Claim C1 (amended): when the assistant response contains tool calls
and the first sensitive in-registry call is `c`, the worker returns
`awaitingApproval = true`, the `PendingAction` built from `c`, a
placeholder tool-result `"[Awaiting user approval]"` for `c.id`, a
placeholder `"[Queued - previous action awaiting approval]"` (ASCII
hyphen; the claim's em dash is the one deviation) for each later
sensitive in-registry call, and one tool-result per tool call, in order,
so every assistant tool-call id is resolved by exactly one tool-result in
the same step. -/
theorem claim1_sensitive_placeholders (w content : String) (tools : List Tool)
    (pre post : List ToolCall) (c : ToolCall)
    (hc : sensFound tools c = true)
    (hpre : ∀ c' ∈ pre, sensFound tools c' = false) :
    (process w tools (.ok content (pre ++ c :: post))).awaitingApproval = true
    ∧ (process w tools (.ok content (pre ++ c :: post))).pendingAction
        = some (mkPendingAction w c)
    ∧ (⟨none, .toolRes c.id "[Awaiting user approval]"⟩ : Msg)
        ∈ (process w tools (.ok content (pre ++ c :: post))).messages
    ∧ (∀ c' ∈ post, sensFound tools c' = true →
        (⟨none, .toolRes c'.id "[Queued - previous action awaiting approval]"⟩ : Msg)
          ∈ (process w tools (.ok content (pre ++ c :: post))).messages)
    ∧ ∃ results,
        (process w tools (.ok content (pre ++ c :: post))).messages
          = ⟨none, .assistant content (pre ++ c :: post)⟩ :: results
        ∧ results.map resolvedId = (pre ++ c :: post).map (fun tc => some tc.id) := by
  have hne : (pre ++ c :: post).isEmpty = false := by
    cases pre <;> rfl
  have hfs := processCallsAux_first_sensitive w tools pre post c hc hpre
  have hmsg : (process w tools (.ok content (pre ++ c :: post))).messages
      = ⟨none, .assistant content (pre ++ c :: post)⟩
          :: (processCallsAux w tools none (pre ++ c :: post)).1 := by
    unfold process
    simp only [hne, Bool.false_eq_true, if_false, hfs.1]
  have hawait : (process w tools (.ok content (pre ++ c :: post))).awaitingApproval = true := by
    unfold process
    simp only [hne, Bool.false_eq_true, if_false, hfs.1]
  have hpa : (process w tools (.ok content (pre ++ c :: post))).pendingAction
      = some (mkPendingAction w c) := by
    unfold process
    simp only [hne, Bool.false_eq_true, if_false, hfs.1]
  refine ⟨hawait, hpa, ?_, ?_, ?_⟩
  · rw [hmsg]
    exact List.mem_cons_of_mem _ hfs.2.1
  · intro c' hm hsf
    rw [hmsg]
    exact List.mem_cons_of_mem _ (hfs.2.2 c' hm hsf)
  · exact ⟨_, hmsg, processCallsAux_ids w tools none _⟩

/-- Witness for C1: a safe read, then two sensitive writes. -/
theorem claim1_sensitive_placeholders_witness :
    sensFound sampleFsTools ⟨"write_file", [("path", "/a")], "c1"⟩ = true
    ∧ (∀ c' ∈ [(⟨"read_file", [("path", "/r")], "c0"⟩ : ToolCall)],
        sensFound sampleFsTools c' = false)
    ∧ ((process "filesystem_worker" sampleFsTools
          (.ok "" ([⟨"read_file", [("path", "/r")], "c0"⟩]
            ++ ⟨"write_file", [("path", "/a")], "c1"⟩
              :: [⟨"write_file", [("path", "/b")], "c2"⟩]))).awaitingApproval = true
      ∧ (process "filesystem_worker" sampleFsTools
          (.ok "" ([⟨"read_file", [("path", "/r")], "c0"⟩]
            ++ ⟨"write_file", [("path", "/a")], "c1"⟩
              :: [⟨"write_file", [("path", "/b")], "c2"⟩]))).pendingAction
          = some (mkPendingAction "filesystem_worker" ⟨"write_file", [("path", "/a")], "c1"⟩)
      ∧ (⟨none, .toolRes "c1" "[Awaiting user approval]"⟩ : Msg)
          ∈ (process "filesystem_worker" sampleFsTools
              (.ok "" ([⟨"read_file", [("path", "/r")], "c0"⟩]
                ++ ⟨"write_file", [("path", "/a")], "c1"⟩
                  :: [⟨"write_file", [("path", "/b")], "c2"⟩]))).messages
      ∧ (∀ c' ∈ [(⟨"write_file", [("path", "/b")], "c2"⟩ : ToolCall)],
            sensFound sampleFsTools c' = true →
            (⟨none, .toolRes c'.id "[Queued - previous action awaiting approval]"⟩ : Msg)
              ∈ (process "filesystem_worker" sampleFsTools
                  (.ok "" ([⟨"read_file", [("path", "/r")], "c0"⟩]
                    ++ ⟨"write_file", [("path", "/a")], "c1"⟩
                      :: [⟨"write_file", [("path", "/b")], "c2"⟩]))).messages)
      ∧ ∃ results,
          (process "filesystem_worker" sampleFsTools
              (.ok "" ([⟨"read_file", [("path", "/r")], "c0"⟩]
                ++ ⟨"write_file", [("path", "/a")], "c1"⟩
                  :: [⟨"write_file", [("path", "/b")], "c2"⟩]))).messages
            = ⟨none, .assistant ""
                ([⟨"read_file", [("path", "/r")], "c0"⟩]
                  ++ ⟨"write_file", [("path", "/a")], "c1"⟩
                    :: [⟨"write_file", [("path", "/b")], "c2"⟩])⟩ :: results
          ∧ results.map resolvedId
              = (([⟨"read_file", [("path", "/r")], "c0"⟩]
                  ++ ⟨"write_file", [("path", "/a")], "c1"⟩
                    :: [⟨"write_file", [("path", "/b")], "c2"⟩] : List ToolCall)).map
                  (fun tc : ToolCall => some tc.id)) :=
  ⟨by decide, by decide,
   claim1_sensitive_placeholders "filesystem_worker" "" sampleFsTools
     ([⟨"read_file", [("path", "/r")], "c0"⟩] : List ToolCall)
     ([⟨"write_file", [("path", "/b")], "c2"⟩] : List ToolCall)
     (⟨"write_file", [("path", "/a")], "c1"⟩ : ToolCall)
     (by decide) (by decide)⟩

/-- Counterexample for C1 as stated: the queued placeholder content is the
ASCII `"[Queued - previous action awaiting approval]"`, not the claim's
`"[Queued — previous action awaiting approval]"` with an em dash. -/
theorem claim1_counterexample :
    ¬ ((⟨none, .toolRes "c2" "[Queued — previous action awaiting approval]"⟩ : Msg)
        ∈ (process "filesystem_worker" sampleFsTools
            (.ok "" [⟨"write_file", [("path", "/a")], "c1"⟩,
                     ⟨"write_file", [("path", "/b")], "c2"⟩])).messages)
    ∧ (⟨none, .toolRes "c2" "[Queued - previous action awaiting approval]"⟩ : Msg)
        ∈ (process "filesystem_worker" sampleFsTools
            (.ok "" [⟨"write_file", [("path", "/a")], "c1"⟩,
                     ⟨"write_file", [("path", "/b")], "c2"⟩])).messages := by
  refine ⟨?_, ?_⟩ <;> decide

/-- Routing to anything but END implies the ceiling was not reached. -/
theorem route_next_ne_end (s : GState) (d : SupDecision)
    (h : (route s d).next ≠ ENDSentinel) :
    s.iterationCount < MAX_ITERATIONS := by
  by_contra hge
  push_neg at hge
  simp [route, hge] at h

/-- A successful `approveAction` preserves the iteration counter. -/
theorem approveAction_iterationCount (registry : List (String × List Tool))
    (s s' : GState) (h : approveAction registry s = .ok s') :
    s'.iterationCount = s.iterationCount := by
  cases hpa : s.pendingAction with
  | none => simp [approveAction, hpa] at h
  | some pa =>
      cases hcw : s.currentWorker with
      | none => simp [approveAction, hpa, hcw] at h
      | some cw =>
          cases hlk : lookupWorker registry cw with
          | none => simp [approveAction, hpa, hcw, hlk] at h
          | some tools =>
              have hok : approveAction registry s
                  = .ok (applyApproveUpdate s (executePendingAction tools pa)) := by
                simp [approveAction, hpa, hcw, hlk]
              rw [hok] at h
              cases h
              rfl

/-- A successful `denyAction` preserves the iteration counter. -/
theorem denyAction_iterationCount (s s' : GState) (reason : Option String)
    (h : denyAction s reason = .ok s') :
    s'.iterationCount = s.iterationCount := by
  cases hpa : s.pendingAction with
  | none => simp [denyAction, hpa] at h
  | some pa =>
      cases reason with
      | none =>
          have hok : denyAction s none
              = .ok { s with
                  messages := messagesReducer s.messages
                    [⟨none, .user "Action denied by user"⟩]
                  pendingAction := none
                  awaitingApproval := false } := by
            simp [denyAction, hpa]
          rw [hok] at h
          cases h
          rfl
      | some r =>
          have hok : denyAction s (some r)
              = .ok { s with
                  messages := messagesReducer s.messages
                    [⟨none, .user ("Action denied by user: " ++ r)⟩]
                  pendingAction := none
                  awaitingApproval := false } := by
            simp [denyAction, hpa]
          rw [hok] at h
          cases h
          rfl

/-- One machine step preserves the iteration bounds: at most
`MAX_ITERATIONS + 1` everywhere, at most `MAX_ITERATIONS` while the run
has not ended. -/
theorem execAct_iter_bound (registry : List (String × List Tool))
    (c c' : Config) (a : OAct)
    (h2 : c.node ≠ .done → c.state.iterationCount ≤ MAX_ITERATIONS)
    (h : execAct registry c a = some c') :
    c'.state.iterationCount ≤ MAX_ITERATIONS + 1
    ∧ (c'.node ≠ .done → c'.state.iterationCount ≤ MAX_ITERATIONS) := by
  cases a with
  | newTurn input =>
      cases hn : c.node with
      | supervisor => simp [execAct, hn] at h
      | workerAt w => simp [execAct, hn] at h
      | humanApproval =>
          cases hap : c.state.awaitingApproval with
          | true => simp [execAct, hn, hap] at h
          | false =>
              have hok : execAct registry c (.newTurn input)
                  = some ⟨.supervisor, humanApprovalStep (applyNewTurnInput c.state input)⟩ := by
                simp [execAct, hn, hap]
              rw [hok] at h
              cases h
              exact ⟨by simp [humanApprovalStep, applyNewTurnInput],
                fun _ => by simp [humanApprovalStep, applyNewTurnInput]⟩
      | done =>
          have hok : execAct registry c (.newTurn input)
              = some ⟨.supervisor, applyNewTurnInput c.state input⟩ := by
            simp [execAct, hn]
          rw [hok] at h
          cases h
          exact ⟨by simp [applyNewTurnInput], fun _ => by simp [applyNewTurnInput]⟩
  | supStep d =>
      cases hn : c.node with
      | workerAt w => simp [execAct, hn] at h
      | humanApproval => simp [execAct, hn] at h
      | done => simp [execAct, hn] at h
      | supervisor =>
          have hok : execAct registry c (.supStep d)
              = some ⟨if (supervisorNodeStep c.state d).next = ENDSentinel then .done
                      else .workerAt (supervisorNodeStep c.state d).next,
                      supervisorNodeStep c.state d⟩ := by
            simp [execAct, hn]
          rw [hok] at h
          cases h
          have hpre : c.state.iterationCount ≤ MAX_ITERATIONS := h2 (by simp [hn])
          constructor
          · show c.state.iterationCount + 1 ≤ MAX_ITERATIONS + 1
            omega
          · intro hnd
            by_cases hP : (supervisorNodeStep c.state d).next = ENDSentinel
            · simp [hP] at hnd
            · have hlt : c.state.iterationCount < MAX_ITERATIONS :=
                route_next_ne_end c.state d hP
              show c.state.iterationCount + 1 ≤ MAX_ITERATIONS
              omega
  | workStep outcome =>
      cases hn : c.node with
      | supervisor => simp [execAct, hn] at h
      | humanApproval => simp [execAct, hn] at h
      | done => simp [execAct, hn] at h
      | workerAt w =>
          have hok : execAct registry c (.workStep outcome)
              = some ⟨if workerToNext w (workerNodeStep w c.state
                          (process w ((lookupWorker registry w).getD []) outcome)) = "human_approval"
                      then GNode.humanApproval
                      else if workerToNext w (workerNodeStep w c.state
                          (process w ((lookupWorker registry w).getD []) outcome)) = "supervisor"
                      then GNode.supervisor
                      else GNode.workerAt (workerToNext w (workerNodeStep w c.state
                          (process w ((lookupWorker registry w).getD []) outcome))),
                      workerNodeStep w c.state
                        (process w ((lookupWorker registry w).getD []) outcome)⟩ := by
            simp [execAct, hn]
          rw [hok] at h
          cases h
          have hpre : c.state.iterationCount ≤ MAX_ITERATIONS := h2 (by simp [hn])
          have hiter : (workerNodeStep w c.state
              (process w ((lookupWorker registry w).getD []) outcome)).iterationCount
                = c.state.iterationCount := rfl
          exact ⟨by rw [hiter]; omega, fun _ => by rw [hiter]; exact hpre⟩
  | resumeRun =>
      cases hn : c.node with
      | supervisor => simp [execAct, hn] at h
      | workerAt w => simp [execAct, hn] at h
      | done => simp [execAct, hn] at h
      | humanApproval =>
          cases hap : c.state.awaitingApproval with
          | false => simp [execAct, hn, hap] at h
          | true =>
              have hok : execAct registry c .resumeRun
                  = some ⟨.supervisor, humanApprovalStep (applyResumeInput c.state)⟩ := by
                simp [execAct, hn, hap]
              rw [hok] at h
              cases h
              have hpre : c.state.iterationCount ≤ MAX_ITERATIONS := h2 (by simp [hn])
              have hiter : (humanApprovalStep (applyResumeInput c.state)).iterationCount
                  = c.state.iterationCount := rfl
              exact ⟨by rw [hiter]; omega, fun _ => by rw [hiter]; exact hpre⟩
  | approveAct =>
      cases hn : c.node with
      | supervisor => simp [execAct, hn] at h
      | workerAt w => simp [execAct, hn] at h
      | done => simp [execAct, hn] at h
      | humanApproval =>
          cases happ : approveAction registry c.state with
          | error e => simp [execAct, hn, happ] at h
          | ok s1 =>
              have hok : execAct registry c .approveAct = some ⟨.humanApproval, s1⟩ := by
                simp [execAct, hn, happ]
              rw [hok] at h
              cases h
              have hpre : c.state.iterationCount ≤ MAX_ITERATIONS := h2 (by simp [hn])
              have hit := approveAction_iterationCount registry c.state s1 happ
              exact ⟨by show s1.iterationCount ≤ MAX_ITERATIONS + 1; omega,
                fun _ => by show s1.iterationCount ≤ MAX_ITERATIONS; omega⟩
  | denyAct reason =>
      cases hn : c.node with
      | supervisor => simp [execAct, hn] at h
      | workerAt w => simp [execAct, hn] at h
      | done => simp [execAct, hn] at h
      | humanApproval =>
          cases hden : denyAction c.state reason with
          | error e => simp [execAct, hn, hden] at h
          | ok s1 =>
              have hok : execAct registry c (.denyAct reason) = some ⟨.humanApproval, s1⟩ := by
                simp [execAct, hn, hden]
              rw [hok] at h
              cases h
              have hpre : c.state.iterationCount ≤ MAX_ITERATIONS := h2 (by simp [hn])
              have hit := denyAction_iterationCount c.state s1 reason hden
              exact ⟨by show s1.iterationCount ≤ MAX_ITERATIONS + 1; omega,
                fun _ => by show s1.iterationCount ≤ MAX_ITERATIONS; omega⟩

/-- The iteration bounds hold along every run. -/
theorem runActs_iter_bound (registry : List (String × List Tool))
    (acts : List OAct) (cStart c : Config)
    (h1 : cStart.state.iterationCount ≤ MAX_ITERATIONS + 1)
    (h2 : cStart.node ≠ .done → cStart.state.iterationCount ≤ MAX_ITERATIONS)
    (h : runActs registry cStart acts = some c) :
    c.state.iterationCount ≤ MAX_ITERATIONS + 1
    ∧ (c.node ≠ .done → c.state.iterationCount ≤ MAX_ITERATIONS) := by
  induction acts generalizing cStart with
  | nil =>
      unfold runActs at h
      cases h
      exact ⟨h1, h2⟩
  | cons a rest ih =>
      unfold runActs at h
      cases he : execAct registry cStart a with
      | none => rw [he] at h; exact absurd h (by simp)
      | some c1 =>
          rw [he] at h
          have hb := execAct_iter_bound registry cStart c1 a h2 he
          exact ih c1 hb.1 hb.2 h

/-- Claim C4 (amended): on every reachable configuration of a run,
`iterationCount ≤ MAX_ITERATIONS + 1` (the supervisor increments the
counter even on its final END pass, so the ceiling value 15 itself is
exceeded by one in the terminal checkpoint — the original bound
`iterationCount ≤ 15` fails, see the counterexample), and
`iterationCount ≤ MAX_ITERATIONS` while the run has not ended; and
whenever the supervisor runs with `iterationCount ≥ MAX_ITERATIONS` it
returns END with the fixed max-steps explanation, regardless of the
routing decision (the model is never consulted) and before the error
check. -/
theorem claim4_iteration_ceiling (registry : List (String × List Tool))
    (acts : List OAct) (c : Config) (s : GState) (d d' : SupDecision)
    (hrun : runActs registry initConfig acts = some c) :
    c.state.iterationCount ≤ MAX_ITERATIONS + 1
    ∧ (c.node ≠ .done → c.state.iterationCount ≤ MAX_ITERATIONS)
    ∧ (MAX_ITERATIONS ≤ s.iterationCount →
        route s d = { next := ENDSentinel, finalResponse := some maxStepsMessage,
                      currentWorker := none }
        ∧ route s d = route s d') := by
  have hb := runActs_iter_bound registry acts initConfig c (by simp [initConfig, initState])
    (fun _ => by simp [initConfig, initState]) hrun
  refine ⟨hb.1, hb.2, fun hge => ?_⟩
  constructor
  · simp [route, hge]
  · simp [route, hge]

/-- Witness for C4: the empty run, and the ceiling behaviour of `route` at
`iterationCount = 15` with an error set and two different decisions. -/
theorem claim4_iteration_ceiling_witness :
    initConfig.state.iterationCount ≤ MAX_ITERATIONS + 1
    ∧ route { initState with iterationCount := 15, error := some "boom" } .failure
        = { next := ENDSentinel, finalResponse := some maxStepsMessage, currentWorker := none }
    ∧ route { initState with iterationCount := 15, error := some "boom" } .failure
        = route { initState with iterationCount := 15, error := some "boom" }
            (.finish (some "done")) :=
  ⟨(claim4_iteration_ceiling sampleRegistry [] initConfig initState .failure .failure rfl).1,
   ((claim4_iteration_ceiling sampleRegistry [] initConfig
       { initState with iterationCount := 15, error := some "boom" }
       .failure (.finish (some "done")) rfl).2.2 (by decide)).1,
   ((claim4_iteration_ceiling sampleRegistry [] initConfig
       { initState with iterationCount := 15, error := some "boom" }
       .failure (.finish (some "done")) rfl).2.2 (by decide)).2⟩

/-- Counterexample for C4 as stated: a run of one user turn in which the
supervisor keeps routing to a completing worker ends in a reachable
configuration whose `iterationCount` is 16 > `MAX_ITERATIONS`. -/
theorem claim4_counterexample :
    (runActs sampleRegistry initConfig maxStepsTrace).map (fun c => c.state.iterationCount)
      = some (MAX_ITERATIONS + 1)
    ∧ ¬ (MAX_ITERATIONS + 1 ≤ MAX_ITERATIONS) := by
  exact ⟨by decide, by decide⟩

end VerbOS
